import Mathlib

/-!
Verification of the EBM core training engine (src/core/Training.cpp) against
its natural-language specification.

The development shallowly embeds the training drivers of Training.cpp:
the bit-packed input iterator of TrainingSetTargetFeatureLoop and
ValidationSetTargetFeatureLoop, the per-case numeric kernels, the
update-generation driver (GenerateModelFeatureCombinationUpdatePerTargetStates
and its public wrapper), the update-application driver
(ApplyModelFeatureCombinationUpdatePerTargetStates and its public wrapper),
TrainingStep, and the EbmTrainingState constructor.

`FractionalDataType` (a C++ double) is modelled by `FP`: a rational value,
NaN, or a signed infinity, with IEEE-style propagation in the arithmetic and
the IEEE comparison semantics in which NaN compares false.  Transcendental
functions (exp, log, sqrt, the sigmoid and softplus used by the
EbmStatistics kernels, which are not part of this translation unit) are
abstract parameters bundled in `ExtFuns`.
-/

/-- Model of the C++ `FractionalDataType` (double): a rational number, NaN,
or a signed infinity. -/
inductive FP where
  | nan : FP
  | inf : FP
  | ninf : FP
  | val : ℚ → FP
deriving DecidableEq, Repr

namespace FP

/-- The floating-point zero. -/
def zero : FP := FP.val 0

/-- IEEE negation. -/
def neg : FP → FP
  | nan => nan
  | inf => ninf
  | ninf => inf
  | val a => val (-a)

/-- IEEE addition: NaN propagates, opposite infinities give NaN. -/
def add : FP → FP → FP
  | nan, _ => nan
  | _, nan => nan
  | inf, ninf => nan
  | ninf, inf => nan
  | inf, _ => inf
  | _, inf => inf
  | ninf, _ => ninf
  | _, ninf => ninf
  | val a, val b => val (a + b)

/-- IEEE subtraction. -/
def sub (x y : FP) : FP := x.add y.neg

/-- IEEE multiplication: NaN propagates, infinity times zero is NaN. -/
def mul : FP → FP → FP
  | nan, _ => nan
  | _, nan => nan
  | inf, inf => inf
  | inf, ninf => ninf
  | ninf, inf => ninf
  | ninf, ninf => inf
  | inf, val b => if b = 0 then nan else if 0 < b then inf else ninf
  | val a, inf => if a = 0 then nan else if 0 < a then inf else ninf
  | ninf, val b => if b = 0 then nan else if 0 < b then ninf else inf
  | val a, ninf => if a = 0 then nan else if 0 < a then ninf else inf
  | val a, val b => val (a * b)

/-- IEEE division (without signed zero): NaN propagates, inf/inf is NaN,
finite/inf is 0, nonzero/0 is a signed infinity, 0/0 is NaN. -/
def div : FP → FP → FP
  | nan, _ => nan
  | _, nan => nan
  | inf, inf => nan
  | inf, ninf => nan
  | ninf, inf => nan
  | ninf, ninf => nan
  | inf, val b => if b < 0 then ninf else inf
  | ninf, val b => if b < 0 then inf else ninf
  | val _, inf => val 0
  | val _, ninf => val 0
  | val a, val b =>
      if b = 0 then (if a = 0 then nan else if a < 0 then ninf else inf)
      else val (a / b)

/-- The IEEE `<` comparison: any comparison involving NaN is false. -/
def lt : FP → FP → Bool
  | nan, _ => false
  | _, nan => false
  | inf, _ => false
  | ninf, ninf => false
  | ninf, _ => true
  | val _, inf => true
  | val _, ninf => false
  | val a, val b => decide (a < b)

/-- `x` is at most `y` in the sense used for the monotonicity of
`m_bestModelMetric`: either strictly below in the IEEE order, or equal. -/
def fle (x y : FP) : Prop := lt x y = true ∨ x = y

theorem add_zero_right (x : FP) : x.add (FP.val 0) = x := by
  cases x <;> simp [add]

theorem sub_zero_right (x : FP) : x.sub (FP.val 0) = x := by
  cases x <;> simp [sub, neg, add]

theorem lt_nan_left (y : FP) : lt nan y = false := by
  cases y <;> rfl

theorem lt_irrefl (x : FP) : lt x x = false := by
  cases x <;> simp [lt]

theorem lt_trans {x y z : FP} (h1 : lt x y = true) (h2 : lt y z = true) :
    lt x z = true := by
  cases x <;> cases y <;> cases z <;>
    simp only [lt, decide_eq_true_eq, Bool.false_eq_true] at h1 h2 ⊢ <;>
    first
      | trivial
      | exact h1.trans h2

theorem fle_refl (x : FP) : fle x x := Or.inr rfl

theorem fle_trans {x y z : FP} (h1 : fle x y) (h2 : fle y z) : fle x z := by
  rcases h1 with h1 | rfl
  · rcases h2 with h2 | rfl
    · exact Or.inl (lt_trans h1 h2)
    · exact Or.inl h1
  · exact h2

/-- Dividing by a positive natural count and then by two is dividing by
twice the count (the identity behind `learningRate / cSamplingSetsAfterZero / 2`). -/
theorem div_nat_div_two (x : FP) (n : ℕ) (hn : 1 ≤ n) :
    (x.div (FP.val n)).div (FP.val 2) = x.div (FP.val ((2 * n : ℕ) : ℚ)) := by
  have hq : (0 : ℚ) < (n : ℚ) := by exact_mod_cast hn
  have hq2 : (0 : ℚ) < ((2 * n : ℕ) : ℚ) := by
    have h2n : (0 : ℕ) < 2 * n := by omega
    exact_mod_cast h2n
  cases x with
  | nan => rfl
  | inf =>
      simp only [div]
      rw [if_neg (not_lt.mpr hq.le)]
      simp only [div]
      rw [if_neg (by norm_num : ¬(2 : ℚ) < 0), if_neg (not_lt.mpr hq2.le)]
  | ninf =>
      simp only [div]
      rw [if_neg (not_lt.mpr hq.le)]
      simp only [div]
      rw [if_neg (by norm_num : ¬(2 : ℚ) < 0), if_neg (not_lt.mpr hq2.le)]
  | val a =>
      simp only [div]
      rw [if_neg hq.ne']
      simp only [div]
      rw [if_neg (by norm_num : ¬(2 : ℚ) = 0), if_neg hq2.ne']
      congr 1
      rw [div_div]
      congr 1
      push_cast
      ring

end FP

/-- Left fold with `FP.add` starting from zero: the running-sum idiom used
for `sumExp`, `sumLogLoss`, `rootMeanSquareError` and `totalGain`. -/
def sumFP (l : List FP) : FP := l.foldl FP.add FP.zero

/-- The transcendental functions consumed by the numeric kernels.
`EbmStatistics.h` is not part of this translation unit, so exp, log, sqrt,
sigma (the logistic function) and softplus are abstract parameters. -/
structure ExtFuns where
  fexp : FP → FP
  flog : FP → FP
  fsqrt : FP → FP
  fsigma : FP → FP
  fsoftplus : FP → FP

/-- Modelled from the spec: `k_cBitsForStorageType` (EbmInternal.h is not in
src); the storage word is 64 bits wide. -/
def k_cBitsForStorageType : ℕ := 64

/-- Modelled from the spec: `GetCountBits` (EbmInternal.h is not in src);
the number of bits per item for a given `cItemsPerBitPackDataUnit`, chosen
so that `items_per_pack * bits_per_item <= word_width`. -/
def GetCountBits (cItemsPerBitPackDataUnit : ℕ) : ℕ :=
  k_cBitsForStorageType / cItemsPerBitPackDataUnit

/-- Modelled from the spec: `GetCountItemsBitPacked` (EbmInternal.h is not
in src); how many items of `cBits` bits fit into one storage word. -/
def GetCountItemsBitPacked (cBits : ℕ) : ℕ := k_cBitsForStorageType / cBits

/-- The mask computed in the feature loops:
`std::numeric_limits<size_t>::max() >> (k_cBitsForStorageType - cBitsPerItemMax)`. -/
def maskBitsFor (cBitsPerItemMax : ℕ) : ℕ :=
  (2 ^ k_cBitsForStorageType - 1) >>> (k_cBitsForStorageType - cBitsPerItemMax)

/-- The inner do-while of the feature loops on one storage word: extract
`count` bins with `iBin = maskBits & iBinCombined` followed by
`iBinCombined >>= cBitsPerItemMax`. -/
def extractWordBins (maskBits cBitsPerItemMax : ℕ) (iBinCombined : ℕ) :
    ℕ → List ℕ
  | 0 => []
  | count + 1 =>
      (maskBits &&& iBinCombined) ::
        extractWordBins maskBits cBitsPerItemMax
          (iBinCombined >>> cBitsPerItemMax) count

/-- The per-column traversal of TrainingSetTargetFeatureLoop and
ValidationSetTargetFeatureLoop: while more than `cItemsPerBitPackDataUnit`
cases remain, read one word and run a full inner block; for the final word
run only the remaining `cItemsRemaining` steps (the `one_last_loop` goto
re-entry). -/
def bitPackedBinSequence (cItemsPerBitPackDataUnit cBitsPerItemMax maskBits : ℕ) :
    List ℕ → ℕ → List ℕ
  | [], _ => []
  | w :: ws, cCasesRemaining =>
      if cItemsPerBitPackDataUnit < cCasesRemaining then
        extractWordBins maskBits cBitsPerItemMax w cItemsPerBitPackDataUnit ++
          bitPackedBinSequence cItemsPerBitPackDataUnit cBitsPerItemMax maskBits
            ws (cCasesRemaining - cItemsPerBitPackDataUnit)
      else
        extractWordBins maskBits cBitsPerItemMax w cCasesRemaining

/-- Little-endian packing of one block of bins into a storage word, the
inverse of `extractWordBins`: bin `i` occupies bits `[i*B, (i+1)*B)`. -/
def packWord (cBitsPerItemMax : ℕ) : List ℕ → ℕ
  | [] => 0
  | b :: bs => b + 2 ^ cBitsPerItemMax * packWord cBitsPerItemMax bs

/-- Pack a bin sequence into storage words, `cItemsPerBitPackDataUnit` bins
per word (the representation produced by the out-of-scope ingestion
collaborator). -/
def packBins (cItemsPerBitPackDataUnit cBitsPerItemMax : ℕ) (bins : List ℕ) :
    List ℕ :=
  if h : bins = [] ∨ cItemsPerBitPackDataUnit = 0 then []
  else
    packWord cBitsPerItemMax (bins.take cItemsPerBitPackDataUnit) ::
      packBins cItemsPerBitPackDataUnit cBitsPerItemMax
        (bins.drop cItemsPerBitPackDataUnit)
termination_by bins.length
decreasing_by
  simp only [List.length_drop]
  have h1 : bins ≠ [] := fun hb => h (Or.inl hb)
  have h2 : cItemsPerBitPackDataUnit ≠ 0 := fun hb => h (Or.inr hb)
  have := List.length_pos.mpr h1
  omega

theorem maskBitsFor_eq (B : ℕ) (hB : B ≤ k_cBitsForStorageType) :
    maskBitsFor B = 2 ^ B - 1 := by
  have key : ∀ u v : ℕ, 0 < u → (u * v - 1) / u = v - 1 := by
    intro u v hu
    cases v with
    | zero => simp
    | succ v2 =>
        have hm : u * (v2 + 1) = u * v2 + u := Nat.mul_succ u v2
        have h : u * (v2 + 1) - 1 = u * v2 + (u - 1) := by omega
        rw [h, Nat.mul_add_div hu, Nat.div_eq_of_lt (by omega)]
        omega
  rw [maskBitsFor, Nat.shiftRight_eq_div_pow]
  have h64 : (2 : ℕ) ^ k_cBitsForStorageType =
      2 ^ (k_cBitsForStorageType - B) * 2 ^ B := by
    rw [← pow_add]
    congr 1
    omega
  rw [h64]
  exact key _ _ (Nat.pos_pow_of_pos _ (by norm_num))

theorem extractWordBins_packWord (B : ℕ) (chunk : List ℕ)
    (hfit : ∀ b ∈ chunk, b < 2 ^ B) :
    extractWordBins (2 ^ B - 1) B (packWord B chunk) chunk.length = chunk := by
  induction chunk with
  | nil => rfl
  | cons b bs ih =>
      have hb : b < 2 ^ B := hfit b (List.mem_cons_self b bs)
      have hbs : ∀ x ∈ bs, x < 2 ^ B := fun x hx => hfit x (List.mem_cons_of_mem b hx)
      have hmask : (2 ^ B - 1) &&& (b + 2 ^ B * packWord B bs) = b := by
        rw [Nat.land_comm, Nat.and_pow_two_sub_one_eq_mod,
          Nat.add_mul_mod_self_left, Nat.mod_eq_of_lt hb]
      have hshift : (b + 2 ^ B * packWord B bs) >>> B = packWord B bs := by
        rw [Nat.shiftRight_eq_div_pow,
          Nat.add_mul_div_left _ _ (Nat.pos_pow_of_pos _ (by norm_num)),
          Nat.div_eq_of_lt hb, Nat.zero_add]
      simp only [List.length_cons, packWord, extractWordBins, hmask, hshift,
        List.cons.injEq, true_and]
      exact ih hbs

theorem packBins_roundtrip (P B : ℕ) (hP : 1 ≤ P) (bins : List ℕ)
    (hfit : ∀ b ∈ bins, b < 2 ^ B) :
    bitPackedBinSequence P B (2 ^ B - 1) (packBins P B bins) bins.length = bins := by
  generalize hn : bins.length = n
  induction n using Nat.strong_induction_on generalizing bins with
  | _ n ih =>
      cases bins with
      | nil =>
          rw [packBins]
          simp [bitPackedBinSequence]
      | cons b0 bs =>
          rw [packBins, dif_neg (not_or.mpr ⟨List.cons_ne_nil b0 bs, by omega⟩)]
          by_cases hlong : P < n
          · simp only [bitPackedBinSequence]
            rw [if_pos hlong]
            have hPle : P ≤ (b0 :: bs).length := by omega
            have htake : ((b0 :: bs).take P).length = P := by
              rw [List.length_take]
              omega
            have hfit1 : ∀ x ∈ (b0 :: bs).take P, x < 2 ^ B :=
              fun x hx => hfit x (List.mem_of_mem_take hx)
            have hfit2 : ∀ x ∈ (b0 :: bs).drop P, x < 2 ^ B :=
              fun x hx => hfit x (List.mem_of_mem_drop hx)
            have hdrop : ((b0 :: bs).drop P).length = n - P := by
              rw [List.length_drop]
              omega
            have hrec := ih (n - P) (by omega) ((b0 :: bs).drop P) hfit2 hdrop
            have hextract : extractWordBins (2 ^ B - 1) B
                (packWord B ((b0 :: bs).take P)) P = (b0 :: bs).take P := by
              have hx := extractWordBins_packWord B ((b0 :: bs).take P) hfit1
              rwa [htake] at hx
            rw [hextract, hrec]
            exact List.take_append_drop P (b0 :: bs)
          · simp only [bitPackedBinSequence]
            rw [if_neg hlong]
            have htake : (b0 :: bs).take P = b0 :: bs :=
              List.take_of_length_le (by omega)
            rw [htake, ← hn]
            exact extractWordBins_packWord B _ hfit

/-- Modelled from the spec: `EbmStatistics::ComputeRegressionResidualError`
(EbmStatistics.h is not in src).  The spec sets the regression residual
directly to the value `target_effective - update[b]`, so the kernel is the
identity on its already-subtracted argument. -/
def ComputeRegressionResidualError (x : FP) : FP := x

/-- Modelled from the spec:
`EbmStatistics::ComputeClassificationResidualErrorBinaryclass`
(EbmStatistics.h is not in src); `residual = target - sigma(score)`. -/
def ComputeClassificationResidualErrorBinaryclass (E : ExtFuns) (score : FP)
    (target : ℕ) : FP :=
  (FP.val target).sub (E.fsigma score)

/-- Modelled from the spec:
`EbmStatistics::ComputeClassificationResidualErrorMulticlass`
(EbmStatistics.h is not in src);
`residual_j = exp(score_j) / sumExp - 1[target = j]`. -/
def ComputeClassificationResidualErrorMulticlass (E : ExtFuns)
    (sumExp score : FP) (target j : ℕ) : FP :=
  ((E.fexp score).div sumExp).sub (FP.val (if target = j then 1 else 0))

/-- Modelled from the spec:
`EbmStatistics::ComputeClassificationSingleCaseLogLossBinaryclass`
(EbmStatistics.h is not in src);
the per-case log loss `softplus(score) - target * score`. -/
def ComputeClassificationSingleCaseLogLossBinaryclass (E : ExtFuns)
    (score : FP) (target : ℕ) : FP :=
  (E.fsoftplus score).sub ((FP.val target).mul score)

/-- Modelled from the spec:
`EbmStatistics::ComputeClassificationSingleCaseLogLossMulticlass`
(EbmStatistics.h is not in src);
the per-case log loss `log(sumExp) - score_target`. -/
def ComputeClassificationSingleCaseLogLossMulticlass (E : ExtFuns)
    (sumExp : FP) (scores : List FP) (target : ℕ) : FP :=
  (E.flog sumExp).sub (scores.getD target FP.zero)

/-- A feature combination as consumed by the drivers: its number of
(significant) features `m_cFeatures`, the precomputed
`m_cItemsPerBitPackDataUnit`, and its index `m_iInputData` into the
per-combination packed columns of a data set. -/
structure FeatureCombination where
  cFeatures : ℕ
  cItemsPerBitPackDataUnit : ℕ
  iInputData : ℕ
deriving DecidableEq, Repr

instance : Inhabited FeatureCombination := ⟨⟨0, 0, 0⟩⟩

/-- A `DataSetByFeatureCombination`: per-case targets (classification bin
indices; regression keeps its effective target inside the residual buffer),
per-case length-`V` residual and prediction-score vectors, and one packed
input column per feature combination. -/
structure DataSet where
  cCases : ℕ
  targets : List ℕ
  residuals : List (List FP)
  scores : List (List FP)
  inputData : List (List ℕ)
deriving DecidableEq, Repr

/-- `pDataSet->GetDataPointer(pFeatureCombination)`. -/
def DataSet.GetDataPointer (ds : DataSet) (fc : FeatureCombination) : List ℕ :=
  ds.inputData.getD fc.iInputData []

/-- `GET_VECTOR_LENGTH`: 1 for regression and binary classification,
the class count for multiclass. -/
def vectorLength (bRegression : Bool) (cTargetStates : ℕ) : ℕ :=
  if bRegression then 1 else if cTargetStates = 2 then 1 else cTargetStates

/-- The bin visited for each case of a data set under one feature
combination: bin 0 for every case of a zero-dimensional combination, and
otherwise the bit-packed traversal of the combination's input column. -/
def caseBins (fc : FeatureCombination) (ds : DataSet) : List ℕ :=
  if fc.cFeatures = 0 then List.replicate ds.cCases 0
  else
    bitPackedBinSequence fc.cItemsPerBitPackDataUnit
      (GetCountBits fc.cItemsPerBitPackDataUnit)
      (maskBitsFor (GetCountBits fc.cItemsPerBitPackDataUnit))
      (ds.GetDataPointer fc) ds.cCases

/-- The first multiclass inner loop of the training pass for one case:
`score_j += update[iBin * K + j]` for `j < K`. -/
def multiclassNewScores (upd : List FP) (K iBin : ℕ) (scoreBlock : List FP) :
    List FP :=
  (List.range K).map
    (fun j => (scoreBlock.getD j FP.zero).add (upd.getD (iBin * K + j) FP.zero))

/-- The second multiclass inner loop for one case: the per-class softmax
residuals before the optional zeroing. -/
def multiclassResidualBlockRaw (E : ExtFuns) (K : ℕ) (target : ℕ)
    (newScores : List FP) : List FP :=
  (List.range K).map
    (fun j => ComputeClassificationResidualErrorMulticlass E
      (sumFP (newScores.map E.fexp)) (newScores.getD j FP.zero) target j)

/-- The optional residual zeroing controlled by the compile-time constant
`k_iZeroResidual` (from EbmInternal.h, not in src, surfaced here as the
parameter `Z`): when `0 <= Z`, `pResidualError[Z - K] = 0` forces the entry
at class index `Z` of the block just written to zero. -/
def applyZeroResidual (Z : ℤ) (residBlock : List FP) : List FP :=
  if 0 ≤ Z then residBlock.set Z.toNat FP.zero else residBlock

/-- One case of the training-set pass: regression updates the residual from
the update value at its bin; binary classification updates the score and
recomputes the residual; multiclass updates all scores, recomputes all
residuals and applies the optional zeroing. -/
def trainCase (E : ExtFuns) (Z : ℤ) (bRegression : Bool) (cTargetStates : ℕ)
    (upd : List FP) (iBin target : ℕ) (scoreBlock residBlock : List FP) :
    List FP × List FP :=
  if bRegression then
    (scoreBlock,
      [ComputeRegressionResidualError
        ((residBlock.headD FP.zero).sub (upd.getD iBin FP.zero))])
  else if cTargetStates = 2 then
    let newScore := (scoreBlock.headD FP.zero).add (upd.getD iBin FP.zero)
    ([newScore], [ComputeClassificationResidualErrorBinaryclass E newScore target])
  else
    let newScores := multiclassNewScores upd cTargetStates iBin scoreBlock
    (newScores,
      applyZeroResidual Z (multiclassResidualBlockRaw E cTargetStates target newScores))

/-- `TrainingSetTargetFeatureLoop`: the residual/score update pass over the
training set for one feature combination and one update tensor. -/
def TrainingSetTargetFeatureLoop (E : ExtFuns) (Z : ℤ) (bRegression : Bool)
    (cTargetStates : ℕ) (fc : FeatureCombination) (upd : List FP)
    (ds : DataSet) : DataSet :=
  let bins := caseBins fc ds
  let out := (bins.zip (ds.targets.zip (ds.scores.zip ds.residuals))).map
    (fun x => trainCase E Z bRegression cTargetStates upd x.1 x.2.1 x.2.2.1 x.2.2.2)
  { ds with scores := out.map (fun y => y.1), residuals := out.map (fun y => y.2) }

/-- One case of the validation-set pass: the updated score block, the
updated residual block (only regression rewrites residuals here), and the
case's contribution to the metric accumulator (squared residual for
regression, per-case log loss for classification). -/
def validationCase (E : ExtFuns) (bRegression : Bool) (cTargetStates : ℕ)
    (upd : List FP) (iBin target : ℕ) (scoreBlock residBlock : List FP) :
    List FP × List FP × FP :=
  if bRegression then
    let residualError := ComputeRegressionResidualError
      ((residBlock.headD FP.zero).sub (upd.getD iBin FP.zero))
    (scoreBlock, [residualError], residualError.mul residualError)
  else if cTargetStates = 2 then
    let newScore := (scoreBlock.headD FP.zero).add (upd.getD iBin FP.zero)
    ([newScore], residBlock,
      ComputeClassificationSingleCaseLogLossBinaryclass E newScore target)
  else
    let newScores := multiclassNewScores upd cTargetStates iBin scoreBlock
    (newScores, residBlock,
      ComputeClassificationSingleCaseLogLossMulticlass E
        (sumFP (newScores.map E.fexp)) newScores target)

/-- `ValidationSetTargetFeatureLoop`: the validation pass for one feature
combination and one update tensor; returns the validation metric (RMSE for
regression after dividing the accumulated squares by the case count and
taking the square root, summed log loss for classification) together with
the updated validation set. -/
def ValidationSetTargetFeatureLoop (E : ExtFuns) (bRegression : Bool)
    (cTargetStates : ℕ) (fc : FeatureCombination) (upd : List FP)
    (ds : DataSet) : FP × DataSet :=
  let bins := caseBins fc ds
  let out := (bins.zip (ds.targets.zip (ds.scores.zip ds.residuals))).map
    (fun x => validationCase E bRegression cTargetStates upd x.1 x.2.1 x.2.2.1 x.2.2.2)
  let total := sumFP (out.map (fun y => y.2.2))
  let metric := if bRegression then E.fsqrt (total.div (FP.val ds.cCases)) else total
  (metric,
    { ds with scores := out.map (fun y => y.1),
              residuals := out.map (fun y => y.2.1) })

/-- The training state (`EbmTrainingState`), restricted to the members the
drivers read and write.  `hasSamplingSets` models the non-nullness of
`m_apSamplingSets` (null exactly when there are no training cases);
current and best models are the dense value lists of the expanded
segmented tensors, one per feature combination. -/
structure EbmTrainingState where
  bRegression : Bool
  cTargetStates : ℕ
  featureCombinations : List FeatureCombination
  trainingSet : Option DataSet
  validationSet : Option DataSet
  cSamplingSets : ℕ
  hasSamplingSets : Bool
  currentModel : List (List FP)
  bestModel : List (List FP)
  bestModelMetric : FP
deriving DecidableEq, Repr

/-- The `EbmTrainingState` constructor (its member-initializer list):
pointers start null (no data sets, no sampling sets, empty models) and
`m_bestModelMetric` starts at `+infinity`. -/
def EbmTrainingState.construct (bRegression : Bool)
    (cTargetStates cFeatureCombinations cSamplingSets : ℕ) : EbmTrainingState :=
  { bRegression := bRegression
    cTargetStates := cTargetStates
    featureCombinations := List.replicate cFeatureCombinations default
    trainingSet := none
    validationSet := none
    cSamplingSets := cSamplingSets
    hasSamplingSets := false
    currentModel := []
    bestModel := []
    bestModelMetric := FP.inf }

/-- `ApplyModelFeatureCombinationUpdatePerTargetStates`: add the update into
the current model tensor of the combination, run the training pass if a
training set exists, run the validation pass if a validation set exists,
and commit current to best on strict metric improvement.  Returns the
status, the value written to `*pValidationMetricReturn`, and the new
state. -/
def ApplyModelFeatureCombinationUpdatePerTargetStates (E : ExtFuns) (Z : ℤ)
    (s : EbmTrainingState) (iFeatureCombination : ℕ) (upd : List FP) :
    ℕ × FP × EbmTrainingState :=
  let fc := s.featureCombinations.getD iFeatureCombination default
  let current := List.zipWith FP.add (s.currentModel.getD iFeatureCombination []) upd
  let s1 : EbmTrainingState :=
    { s with
      currentModel := s.currentModel.set iFeatureCombination current
      trainingSet := s.trainingSet.map
        (fun ts => TrainingSetTargetFeatureLoop E Z s.bRegression s.cTargetStates fc upd ts) }
  match s.validationSet with
  | none => (0, FP.zero, s1)
  | some vs =>
      let mv := ValidationSetTargetFeatureLoop E s.bRegression s.cTargetStates fc upd vs
      let s2 : EbmTrainingState := { s1 with validationSet := some mv.2 }
      if FP.lt mv.1 s2.bestModelMetric then
        (0, mv.1, { s2 with bestModelMetric := mv.1, bestModel := s2.currentModel })
      else
        (0, mv.1, s2)

/-- `ApplyModelFeatureCombinationUpdate`: a null update tensor writes metric
0 and succeeds without touching the state; classification with at most one
target state writes metric 0 and succeeds without touching the state;
otherwise the per-target-states driver runs. -/
def ApplyModelFeatureCombinationUpdate (E : ExtFuns) (Z : ℤ)
    (s : EbmTrainingState) (iFeatureCombination : ℕ) (upd : Option (List FP)) :
    ℕ × FP × EbmTrainingState :=
  match upd with
  | none => (0, FP.zero, s)
  | some u =>
      if s.bRegression then
        ApplyModelFeatureCombinationUpdatePerTargetStates E Z s iFeatureCombination u
      else if s.cTargetStates ≤ 1 then (0, FP.zero, s)
      else ApplyModelFeatureCombinationUpdatePerTargetStates E Z s iFeatureCombination u

/-- The tree learners (DimensionSingle.h / DimensionMultiple.h are not part
of this translation unit): per sampling set, `TrainZeroDimensional` and
`TrainMultiDimensional` write an update tensor (no gain),
`TrainSingleDimensional` writes an update tensor and a gain; `none` models
a learner failure. -/
structure Learners where
  trainZero : ℕ → Option (List FP)
  trainSingle : ℕ → Option (List FP × FP)
  trainMulti : ℕ → Option (List FP)

/-- The dimensionality dispatch of the sampling-set loop: 0 dimensions call
the zero-dimensional learner, 1 dimension the single-dimensional learner
(the only one that reports a gain; the others leave the per-set gain 0). -/
def learnerResult (L : Learners) (cDimensions iSamplingSet : ℕ) :
    Option (List FP × FP) :=
  if cDimensions = 0 then (L.trainZero iSamplingSet).map (fun t => (t, FP.zero))
  else if cDimensions = 1 then L.trainSingle iSamplingSet
  else (L.trainMulti iSamplingSet).map (fun t => (t, FP.zero))

/-- Modelled from the spec: `SegmentedTensor::Add` into the reset
accumulator (SegmentedTensor.h is not in src).  The accumulator starts as
the reset (all-zero) tensor, so the first add yields the added tensor and
later adds are element-wise. -/
def tensorAdd (acc t : List FP) : List FP :=
  if acc.isEmpty then t else List.zipWith FP.add acc t

/-- Modelled from the spec: `SegmentedTensor::Expand` (SegmentedTensor.h is
not in src) makes the dense representation explicit; on the dense value
lists of this model it does not change any stored value. -/
def tensorExpand (t : List FP) : List FP := t

/-- The sampling-set loop of the update-generation driver: accumulate each
learner's update tensor and gain, failing as soon as a learner fails. -/
def generateLoop (L : Learners) (cDimensions : ℕ) :
    List ℕ → List FP → FP → Option (List FP × FP)
  | [], acc, totalGain => some (acc, totalGain)
  | iSamplingSet :: rest, acc, totalGain =>
      match learnerResult L cDimensions iSamplingSet with
      | none => none
      | some tg => generateLoop L cDimensions rest (tensorAdd acc tg.1) (totalGain.add tg.2)

/-- `GenerateModelFeatureCombinationUpdatePerTargetStates`: loop over the
sampling sets (with `cSamplingSetsAfterZero` promoting 0 to 1), divide the
accumulated gain by the number of sampling sets, scale the accumulated
tensor by `learningRate / cSamplingSetsAfterZero` (halved once more for
binary classification when `EXPAND_BINARY_LOGITS` is set), and expand.
Returns the tensor (null on failure) and the value written to
`*pGainReturn`. -/
def GenerateModelFeatureCombinationUpdatePerTargetStates (L : Learners)
    (bExpandBinaryLogits : Bool) (s : EbmTrainingState)
    (iFeatureCombination : ℕ) (learningRate : FP) : Option (List FP) × FP :=
  let cSamplingSetsAfterZero := if s.cSamplingSets = 0 then 1 else s.cSamplingSets
  let fc := s.featureCombinations.getD iFeatureCombination default
  let cDimensions := fc.cFeatures
  if s.hasSamplingSets then
    match generateLoop L cDimensions (List.range cSamplingSetsAfterZero) [] FP.zero with
    | none => (none, FP.zero)
    | some ag =>
        let totalGain := ag.2.div (FP.val cSamplingSetsAfterZero)
        let bDividing := !s.bRegression && bExpandBinaryLogits && s.cTargetStates == 2
        let scaled :=
          if bDividing then
            ag.1.map (fun v => v.mul
              ((learningRate.div (FP.val cSamplingSetsAfterZero)).div (FP.val 2)))
          else
            ag.1.map (fun v => v.mul (learningRate.div (FP.val cSamplingSetsAfterZero)))
        let expanded := if cDimensions = 0 then scaled else tensorExpand scaled
        (some expanded, totalGain)
  else (some [], FP.zero)

/-- `GenerateModelFeatureCombinationUpdate`: classification with at most one
target state returns a null tensor with gain 0; otherwise the
per-target-states driver runs. -/
def GenerateModelFeatureCombinationUpdate (L : Learners)
    (bExpandBinaryLogits : Bool) (s : EbmTrainingState)
    (iFeatureCombination : ℕ) (learningRate : FP) : Option (List FP) × FP :=
  if !s.bRegression && s.cTargetStates ≤ 1 then (none, FP.zero)
  else GenerateModelFeatureCombinationUpdatePerTargetStates L bExpandBinaryLogits
    s iFeatureCombination learningRate

/-- `TrainingStep`: classification with at most one target state writes
metric 0 and succeeds; otherwise generate an update (returning status 1 on
a null tensor) and apply it. -/
def TrainingStep (E : ExtFuns) (Z : ℤ) (L : Learners)
    (bExpandBinaryLogits : Bool) (s : EbmTrainingState)
    (iFeatureCombination : ℕ) (learningRate : FP) : ℕ × FP × EbmTrainingState :=
  if !s.bRegression && s.cTargetStates ≤ 1 then (0, FP.zero, s)
  else
    match GenerateModelFeatureCombinationUpdate L bExpandBinaryLogits s
      iFeatureCombination learningRate with
    | (none, _) => (1, FP.zero, s)
    | (some u, _) =>
        ApplyModelFeatureCombinationUpdate E Z s iFeatureCombination (some u)

/-- A sequence of `ApplyModelFeatureCombinationUpdate` calls folded over the
training state. -/
def applyCalls (E : ExtFuns) (Z : ℤ) (s : EbmTrainingState) :
    List (ℕ × Option (List FP)) → EbmTrainingState
  | [] => s
  | c :: rest =>
      applyCalls E Z (ApplyModelFeatureCombinationUpdate E Z s c.1 c.2).2.2 rest

theorem FP.add_fzero (x : FP) : x.add FP.zero = x := FP.add_zero_right x

theorem FP.sub_fzero (x : FP) : x.sub FP.zero = x := FP.sub_zero_right x

theorem getD_set_of_lt {α : Type} (l : List α) (n : ℕ) (v d : α)
    (h : n < l.length) : (l.set n v).getD n d = v := by
  induction l generalizing n with
  | nil => simp at h
  | cons x xs ih =>
      cases n with
      | zero => rfl
      | succ m =>
          show (x :: xs.set m v).getD (m + 1) d = v
          rw [List.getD_cons_succ]
          exact ih m (by simp at h; omega)

theorem set_getD_self {α : Type} (l : List α) (n : ℕ) (d : α) :
    l.set n (l.getD n d) = l := by
  induction l generalizing n with
  | nil => rfl
  | cons x xs ih =>
      cases n with
      | zero => rfl
      | succ m =>
          show x :: xs.set m ((x :: xs).getD (m + 1) d) = x :: xs
          rw [List.getD_cons_succ, ih m]

theorem replicate_getD_zero (L j : ℕ) :
    (List.replicate L FP.zero).getD j FP.zero = FP.zero := by
  induction L generalizing j with
  | zero => cases j <;> rfl
  | succ n ih =>
      cases j with
      | zero => rfl
      | succ m =>
          show (List.replicate n FP.zero).getD m FP.zero = FP.zero
          exact ih m

theorem zipWith_add_replicate_zero (l : List FP) :
    List.zipWith FP.add l (List.replicate l.length FP.zero) = l := by
  induction l with
  | nil => rfl
  | cons x xs ih =>
      simp only [List.length_cons, List.replicate, List.zipWith]
      rw [ih, FP.add_fzero]

theorem length_one_eq_headD (l : List FP) (h : l.length = 1) :
    l = [l.headD FP.zero] := by
  cases l with
  | nil => simp at h
  | cons x xs =>
      cases xs with
      | nil => rfl
      | cons y ys => simp at h

theorem range_map_getD (l : List FP) :
    (List.range l.length).map (fun j => l.getD j FP.zero) = l := by
  induction l with
  | nil => rfl
  | cons x xs ih =>
      rw [List.length_cons, List.range_succ_eq_map, List.map_cons, List.map_map]
      have heq : ((fun j => (x :: xs).getD j FP.zero) ∘ Nat.succ) =
          (fun j => xs.getD j FP.zero) := by
        funext j
        rfl
      rw [heq, ih]
      rfl

/-- C10: for every training state, ApplyModelFeatureCombinationUpdate with a
null update tensor returns status 0, writes 0 to the validation metric
output, and leaves the entire state (current model, best model, scores,
residuals, best metric) unchanged. -/
theorem apply_null_update_noop (E : ExtFuns) (Z : ℤ) (s : EbmTrainingState)
    (i : ℕ) :
    ApplyModelFeatureCombinationUpdate E Z s i none = (0, FP.zero, s) := rfl

/-- C3: for classification with at most one target state,
GenerateModelFeatureCombinationUpdate returns a null tensor and gain 0,
ApplyModelFeatureCombinationUpdate returns status 0 and metric 0 without
touching the state, and TrainingStep returns status 0 and metric 0 without
touching the state; none of them reports an error. -/
theorem degenerate_classification_success (E : ExtFuns) (Z : ℤ) (L : Learners)
    (ex : Bool) (s : EbmTrainingState) (i : ℕ) (learningRate : FP)
    (u : Option (List FP)) (hreg : s.bRegression = false)
    (hts : s.cTargetStates ≤ 1) :
    GenerateModelFeatureCombinationUpdate L ex s i learningRate = (none, FP.zero) ∧
    ApplyModelFeatureCombinationUpdate E Z s i u = (0, FP.zero, s) ∧
    TrainingStep E Z L ex s i learningRate = (0, FP.zero, s) := by
  have hcond : (!s.bRegression && decide (s.cTargetStates ≤ 1)) = true := by
    rw [hreg]
    simp [hts]
  refine ⟨?_, ?_, ?_⟩
  · rw [GenerateModelFeatureCombinationUpdate, if_pos hcond]
  · cases u with
    | none => rfl
    | some v =>
        rw [ApplyModelFeatureCombinationUpdate]
        rw [hreg]
        simp [hts]
  · rw [TrainingStep, if_pos hcond]

def wExt : ExtFuns := ⟨fun x => x, fun x => x, fun x => x, fun x => x, fun x => x⟩

def wLearners : Learners :=
  ⟨fun _ => some [FP.zero], fun _ => some ([FP.zero], FP.zero), fun _ => some [FP.zero]⟩

theorem degenerate_classification_success_witness :
    GenerateModelFeatureCombinationUpdate wLearners false
        (EbmTrainingState.construct false 1 2 0) 0 FP.zero = (none, FP.zero) ∧
    ApplyModelFeatureCombinationUpdate wExt (-1)
        (EbmTrainingState.construct false 1 2 0) 0 (some [FP.val 1]) =
      (0, FP.zero, EbmTrainingState.construct false 1 2 0) ∧
    TrainingStep wExt (-1) wLearners false
        (EbmTrainingState.construct false 1 2 0) 0 FP.zero =
      (0, FP.zero, EbmTrainingState.construct false 1 2 0) :=
  degenerate_classification_success wExt (-1) wLearners false
    (EbmTrainingState.construct false 1 2 0) 0 FP.zero (some [FP.val 1])
    rfl (by decide)

/-- C5: for every ApplyModelFeatureCombinationUpdatePerTargetStates call on
a training state whose validation set is empty, the call succeeds, the
returned validation metric is 0, and neither the best metric nor any best
model tensor is modified. -/
theorem apply_empty_validation_metric_zero (E : ExtFuns) (Z : ℤ)
    (s : EbmTrainingState) (i : ℕ) (upd : List FP)
    (hv : s.validationSet = none) :
    (ApplyModelFeatureCombinationUpdatePerTargetStates E Z s i upd).1 = 0 ∧
    (ApplyModelFeatureCombinationUpdatePerTargetStates E Z s i upd).2.1 = FP.zero ∧
    (ApplyModelFeatureCombinationUpdatePerTargetStates E Z s i upd).2.2.bestModelMetric =
      s.bestModelMetric ∧
    (ApplyModelFeatureCombinationUpdatePerTargetStates E Z s i upd).2.2.bestModel =
      s.bestModel := by
  unfold ApplyModelFeatureCombinationUpdatePerTargetStates
  rw [hv]
  exact ⟨rfl, rfl, rfl, rfl⟩

/-- Unfolding of ApplyModelFeatureCombinationUpdatePerTargetStates when the
validation set is present. -/
theorem applyPer_validation_some (E : ExtFuns) (Z : ℤ) (s : EbmTrainingState)
    (i : ℕ) (upd : List FP) (vs : DataSet) (hv : s.validationSet = some vs) :
    ApplyModelFeatureCombinationUpdatePerTargetStates E Z s i upd =
      (if FP.lt (ValidationSetTargetFeatureLoop E s.bRegression s.cTargetStates
            (s.featureCombinations.getD i default) upd vs).1 s.bestModelMetric = true
       then
         (0,
          (ValidationSetTargetFeatureLoop E s.bRegression s.cTargetStates
            (s.featureCombinations.getD i default) upd vs).1,
          { s with
            currentModel := s.currentModel.set i
              (List.zipWith FP.add (s.currentModel.getD i []) upd)
            trainingSet := s.trainingSet.map
              (fun ts => TrainingSetTargetFeatureLoop E Z s.bRegression
                s.cTargetStates (s.featureCombinations.getD i default) upd ts)
            validationSet := some (ValidationSetTargetFeatureLoop E s.bRegression
              s.cTargetStates (s.featureCombinations.getD i default) upd vs).2
            bestModel := s.currentModel.set i
              (List.zipWith FP.add (s.currentModel.getD i []) upd)
            bestModelMetric := (ValidationSetTargetFeatureLoop E s.bRegression
              s.cTargetStates (s.featureCombinations.getD i default) upd vs).1 })
       else
         (0,
          (ValidationSetTargetFeatureLoop E s.bRegression s.cTargetStates
            (s.featureCombinations.getD i default) upd vs).1,
          { s with
            currentModel := s.currentModel.set i
              (List.zipWith FP.add (s.currentModel.getD i []) upd)
            trainingSet := s.trainingSet.map
              (fun ts => TrainingSetTargetFeatureLoop E Z s.bRegression
                s.cTargetStates (s.featureCombinations.getD i default) upd ts)
            validationSet := some (ValidationSetTargetFeatureLoop E s.bRegression
              s.cTargetStates (s.featureCombinations.getD i default) upd vs).2 })) := by
  obtain ⟨breg, cts, fcs, tset, vset, css, hss, cm, bm, bmm⟩ := s
  change vset = some vs at hv
  subst hv
  rfl

/-- C1: for every ApplyModelFeatureCombinationUpdatePerTargetStates call on
a state with a non-empty validation set, if the computed validation metric
`m` satisfies `m < best_metric` then the best metric is set to `m` and the
whole current model (every combination, not only the updated one) is copied
into the best model; if `m` does not satisfy the strict comparison — in
particular if `m >= best_metric` or `m` is NaN — neither the best metric
nor the best model is modified. -/
theorem apply_best_model_commit (E : ExtFuns) (Z : ℤ) (s : EbmTrainingState)
    (i : ℕ) (upd : List FP) (vs : DataSet) (m : FP)
    (hv : s.validationSet = some vs)
    (hm : (ApplyModelFeatureCombinationUpdatePerTargetStates E Z s i upd).2.1 = m) :
    (FP.lt m s.bestModelMetric = true →
      (ApplyModelFeatureCombinationUpdatePerTargetStates E Z s i upd).2.2.bestModelMetric = m ∧
      (ApplyModelFeatureCombinationUpdatePerTargetStates E Z s i upd).2.2.bestModel =
        (ApplyModelFeatureCombinationUpdatePerTargetStates E Z s i upd).2.2.currentModel) ∧
    (FP.lt m s.bestModelMetric = false →
      (ApplyModelFeatureCombinationUpdatePerTargetStates E Z s i upd).2.2.bestModelMetric =
        s.bestModelMetric ∧
      (ApplyModelFeatureCombinationUpdatePerTargetStates E Z s i upd).2.2.bestModel =
        s.bestModel) ∧
    (m = FP.nan →
      (ApplyModelFeatureCombinationUpdatePerTargetStates E Z s i upd).2.2.bestModelMetric =
        s.bestModelMetric ∧
      (ApplyModelFeatureCombinationUpdatePerTargetStates E Z s i upd).2.2.bestModel =
        s.bestModel) := by
  rw [applyPer_validation_some E Z s i upd vs hv] at hm ⊢
  by_cases hlt : FP.lt (ValidationSetTargetFeatureLoop E s.bRegression
      s.cTargetStates (s.featureCombinations.getD i default) upd vs).1
      s.bestModelMetric = true
  · rw [if_pos hlt] at hm ⊢
    subst hm
    refine ⟨fun _ => ⟨rfl, rfl⟩, fun hfalse => ?_, fun hnan => ?_⟩
    · rw [hlt] at hfalse
      cases hfalse
    · rw [hnan, FP.lt_nan_left] at hlt
      cases hlt
  · rw [if_neg hlt] at hm ⊢
    subst hm
    exact ⟨fun htrue => absurd htrue hlt, fun _ => ⟨rfl, rfl⟩, fun _ => ⟨rfl, rfl⟩⟩

def wValState : EbmTrainingState :=
  { EbmTrainingState.construct true 0 1 0 with
    currentModel := [[FP.val 0]]
    bestModel := [[FP.val 0]]
    featureCombinations := [⟨0, 0, 0⟩]
    validationSet := some ⟨1, [0], [[FP.val 1]], [[FP.val 0]], [[]]⟩ }

theorem apply_best_model_commit_witness :
    (FP.lt (ApplyModelFeatureCombinationUpdatePerTargetStates wExt (-1) wValState 0 [FP.val 0]).2.1
        wValState.bestModelMetric = true →
      (ApplyModelFeatureCombinationUpdatePerTargetStates wExt (-1) wValState 0 [FP.val 0]).2.2.bestModelMetric =
        (ApplyModelFeatureCombinationUpdatePerTargetStates wExt (-1) wValState 0 [FP.val 0]).2.1 ∧
      (ApplyModelFeatureCombinationUpdatePerTargetStates wExt (-1) wValState 0 [FP.val 0]).2.2.bestModel =
        (ApplyModelFeatureCombinationUpdatePerTargetStates wExt (-1) wValState 0 [FP.val 0]).2.2.currentModel) ∧
    (FP.lt (ApplyModelFeatureCombinationUpdatePerTargetStates wExt (-1) wValState 0 [FP.val 0]).2.1
        wValState.bestModelMetric = false →
      (ApplyModelFeatureCombinationUpdatePerTargetStates wExt (-1) wValState 0 [FP.val 0]).2.2.bestModelMetric =
        wValState.bestModelMetric ∧
      (ApplyModelFeatureCombinationUpdatePerTargetStates wExt (-1) wValState 0 [FP.val 0]).2.2.bestModel =
        wValState.bestModel) ∧
    ((ApplyModelFeatureCombinationUpdatePerTargetStates wExt (-1) wValState 0 [FP.val 0]).2.1 = FP.nan →
      (ApplyModelFeatureCombinationUpdatePerTargetStates wExt (-1) wValState 0 [FP.val 0]).2.2.bestModelMetric =
        wValState.bestModelMetric ∧
      (ApplyModelFeatureCombinationUpdatePerTargetStates wExt (-1) wValState 0 [FP.val 0]).2.2.bestModel =
        wValState.bestModel) :=
  apply_best_model_commit wExt (-1) wValState 0 [FP.val 0]
    ⟨1, [0], [[FP.val 1]], [[FP.val 0]], [[]]⟩ _ rfl rfl

theorem apply_empty_validation_metric_zero_witness :
    (ApplyModelFeatureCombinationUpdatePerTargetStates wExt (-1)
      (EbmTrainingState.construct true 0 1 0) 0 [FP.val 1]).1 = 0 ∧
    (ApplyModelFeatureCombinationUpdatePerTargetStates wExt (-1)
      (EbmTrainingState.construct true 0 1 0) 0 [FP.val 1]).2.1 = FP.zero ∧
    (ApplyModelFeatureCombinationUpdatePerTargetStates wExt (-1)
      (EbmTrainingState.construct true 0 1 0) 0 [FP.val 1]).2.2.bestModelMetric =
      (EbmTrainingState.construct true 0 1 0).bestModelMetric ∧
    (ApplyModelFeatureCombinationUpdatePerTargetStates wExt (-1)
      (EbmTrainingState.construct true 0 1 0) 0 [FP.val 1]).2.2.bestModel =
      (EbmTrainingState.construct true 0 1 0).bestModel :=
  apply_empty_validation_metric_zero wExt (-1)
    (EbmTrainingState.construct true 0 1 0) 0 [FP.val 1] rfl

/-- A single ApplyModelFeatureCombinationUpdate call never increases
`m_bestModelMetric`. -/
theorem apply_bestMetric_step (E : ExtFuns) (Z : ℤ) (s : EbmTrainingState)
    (i : ℕ) (u : Option (List FP)) :
    FP.fle (ApplyModelFeatureCombinationUpdate E Z s i u).2.2.bestModelMetric
      s.bestModelMetric := by
  have hper : ∀ upd : List FP,
      FP.fle (ApplyModelFeatureCombinationUpdatePerTargetStates E Z s i upd).2.2.bestModelMetric
        s.bestModelMetric := by
    intro upd
    cases hv : s.validationSet with
    | none =>
        unfold ApplyModelFeatureCombinationUpdatePerTargetStates
        rw [hv]
        exact Or.inr rfl
    | some vs =>
        rw [applyPer_validation_some E Z s i upd vs hv]
        by_cases hlt : FP.lt (ValidationSetTargetFeatureLoop E s.bRegression
            s.cTargetStates (s.featureCombinations.getD i default) upd vs).1
            s.bestModelMetric = true
        · rw [if_pos hlt]
          exact Or.inl hlt
        · rw [if_neg hlt]
          exact Or.inr rfl
  cases u with
  | none => exact FP.fle_refl _
  | some upd =>
      show FP.fle (if s.bRegression = true then
          ApplyModelFeatureCombinationUpdatePerTargetStates E Z s i upd
        else if s.cTargetStates ≤ 1 then (0, FP.zero, s)
        else ApplyModelFeatureCombinationUpdatePerTargetStates E Z s i upd).2.2.bestModelMetric
        s.bestModelMetric
      by_cases hreg : s.bRegression = true
      · rw [if_pos hreg]
        exact hper upd
      · rw [if_neg hreg]
        by_cases hts : s.cTargetStates ≤ 1
        · rw [if_pos hts]
          exact FP.fle_refl _
        · rw [if_neg hts]
          exact hper upd

/-- C6: `m_bestModelMetric` is initialized to positive infinity by the
EbmTrainingState constructor, and across every sequence of
ApplyModelFeatureCombinationUpdate calls it is monotonically
non-increasing (in the IEEE order, strictly below or equal at each step). -/
theorem best_metric_init_and_monotone (E : ExtFuns) (Z : ℤ) (b : Bool)
    (cTargetStates cFeatureCombinations cSamplingSets : ℕ)
    (s : EbmTrainingState) (calls : List (ℕ × Option (List FP))) :
    (EbmTrainingState.construct b cTargetStates cFeatureCombinations
      cSamplingSets).bestModelMetric = FP.inf ∧
    FP.fle (applyCalls E Z s calls).bestModelMetric s.bestModelMetric := by
  refine ⟨rfl, ?_⟩
  induction calls generalizing s with
  | nil => exact FP.fle_refl _
  | cons c rest ih =>
      exact FP.fle_trans (ih _) (apply_bestMetric_step E Z s c.1 c.2)

/-- C2: for a feature combination with at least one feature,
`items_per_pack = P` items per storage word and `B = GetCountBits P` bits
per item, the training-set (and validation-set) pass enumerates the packed
input column word by word — masking with
`maskBits = size_t_max >> (64 - B)`, which equals `(1 <<< B) - 1`, and
shifting right by `B`, in blocks of `P` with a final partial block of the
remaining items — visiting exactly the original bin of every case in
original case order. -/
theorem bitpack_visits_original_bins (fc : FeatureCombination) (ds : DataSet)
    (bins : List ℕ) (hd : 1 ≤ fc.cFeatures)
    (hP : 1 ≤ fc.cItemsPerBitPackDataUnit)
    (hP64 : fc.cItemsPerBitPackDataUnit ≤ 64)
    (hwords : ds.GetDataPointer fc =
      packBins fc.cItemsPerBitPackDataUnit
        (GetCountBits fc.cItemsPerBitPackDataUnit) bins)
    (hcount : ds.cCases = bins.length)
    (hfit : ∀ b ∈ bins, b < 2 ^ GetCountBits fc.cItemsPerBitPackDataUnit) :
    caseBins fc ds = bins ∧
    maskBitsFor (GetCountBits fc.cItemsPerBitPackDataUnit) =
      2 ^ GetCountBits fc.cItemsPerBitPackDataUnit - 1 := by
  have hB : GetCountBits fc.cItemsPerBitPackDataUnit ≤ k_cBitsForStorageType :=
    Nat.div_le_self _ _
  have hmask := maskBitsFor_eq (GetCountBits fc.cItemsPerBitPackDataUnit) hB
  refine ⟨?_, hmask⟩
  rw [caseBins, if_neg (by omega), hwords, hcount, hmask]
  exact packBins_roundtrip fc.cItemsPerBitPackDataUnit
    (GetCountBits fc.cItemsPerBitPackDataUnit) hP bins hfit

theorem bitpack_visits_original_bins_witness :
    caseBins ⟨1, 4, 0⟩
      ⟨4, [], [], [], [packBins 4 (GetCountBits 4) [3, 1, 2, 0]]⟩ =
      [3, 1, 2, 0] ∧
    maskBitsFor (GetCountBits 4) = 2 ^ GetCountBits 4 - 1 :=
  bitpack_visits_original_bins ⟨1, 4, 0⟩
    ⟨4, [], [], [], [packBins 4 (GetCountBits 4) [3, 1, 2, 0]]⟩ [3, 1, 2, 0]
    (by decide) (by decide) (by decide) rfl rfl (by decide)

/-- When every learner call succeeds, the sampling-set loop returns the
folded tensor accumulator and the folded gain. -/
theorem generateLoop_eq (L : Learners) (cDimensions : ℕ) (t : ℕ → List FP)
    (g : ℕ → FP)
    (h : ∀ j, learnerResult L cDimensions j = some (t j, g j)) :
    ∀ (l : List ℕ) (acc : List FP) (totalGain : FP),
      generateLoop L cDimensions l acc totalGain =
        some (l.foldl (fun a j => tensorAdd a (t j)) acc,
          l.foldl (fun a j => a.add (g j)) totalGain) := by
  intro l
  induction l with
  | nil => intro acc totalGain; rfl
  | cons j rest ih =>
      intro acc totalGain
      rw [generateLoop, h j]
      exact ih (tensorAdd acc (t j)) (totalGain.add (g j))

/-- C4: in the update-generation driver with learning rate `eta` and `S`
effective sampling sets, the accumulated update tensor is scaled elementwise
by `eta / (2 * S)` exactly when the mode is binary classification with
binary-logit expansion enabled, and by `eta / S` in every other mode
(regression, multiclass, and binary with expansion disabled). -/
theorem generate_update_scaling (L : Learners) (bExpandBinaryLogits : Bool)
    (s : EbmTrainingState) (i : ℕ) (learningRate : FP)
    (t : ℕ → List FP) (g : ℕ → FP)
    (hS : s.hasSamplingSets = true)
    (hlearn : ∀ j, learnerResult L
      (s.featureCombinations.getD i default).cFeatures j = some (t j, g j)) :
    (GenerateModelFeatureCombinationUpdatePerTargetStates L bExpandBinaryLogits
        s i learningRate).1 =
      some (((List.range (if s.cSamplingSets = 0 then 1 else s.cSamplingSets)).foldl
          (fun a j => tensorAdd a (t j)) []).map
        (fun v => v.mul
          (if s.bRegression = false ∧ bExpandBinaryLogits = true ∧ s.cTargetStates = 2
           then learningRate.div
             (FP.val ((2 * (if s.cSamplingSets = 0 then 1 else s.cSamplingSets) : ℕ) : ℚ))
           else learningRate.div
             (FP.val (((if s.cSamplingSets = 0 then 1 else s.cSamplingSets : ℕ)) : ℚ))))) := by
  have hpos : 1 ≤ (if s.cSamplingSets = 0 then 1 else s.cSamplingSets) := by
    by_cases h0 : s.cSamplingSets = 0
    · rw [if_pos h0]
    · rw [if_neg h0]; omega
  rw [GenerateModelFeatureCombinationUpdatePerTargetStates]
  rw [if_pos hS]
  rw [generateLoop_eq L _ t g hlearn]
  by_cases hdiv : (!s.bRegression && bExpandBinaryLogits && s.cTargetStates == 2) = true
  · have hdiv2 : s.bRegression = false ∧ bExpandBinaryLogits = true ∧ s.cTargetStates = 2 := by
      simp only [Bool.and_eq_true, Bool.not_eq_true', beq_iff_eq] at hdiv
      exact ⟨hdiv.1.1, hdiv.1.2, hdiv.2⟩
    simp only [hdiv, if_pos hdiv2, if_true]
    rw [FP.div_nat_div_two learningRate _ hpos]
    by_cases hd0 : (s.featureCombinations.getD i default).cFeatures = 0
    · rw [if_pos hd0]
    · rw [if_neg hd0]
      rfl
  · have hdiv2 : ¬(s.bRegression = false ∧ bExpandBinaryLogits = true ∧ s.cTargetStates = 2) := by
      intro hc
      apply hdiv
      simp only [Bool.and_eq_true, Bool.not_eq_true', beq_iff_eq]
      exact ⟨⟨hc.1, hc.2.1⟩, hc.2.2⟩
    rw [Bool.not_eq_true] at hdiv
    simp only [hdiv, if_neg hdiv2, Bool.false_eq_true, if_false]
    by_cases hd0 : (s.featureCombinations.getD i default).cFeatures = 0
    · rw [if_pos hd0]
    · rw [if_neg hd0]
      rfl

def wGenState : EbmTrainingState :=
  { EbmTrainingState.construct true 0 1 1 with hasSamplingSets := true }

theorem generate_update_scaling_witness :
    (GenerateModelFeatureCombinationUpdatePerTargetStates wLearners false
        wGenState 0 (FP.val 1)).1 =
      some (((List.range (if wGenState.cSamplingSets = 0 then 1 else wGenState.cSamplingSets)).foldl
          (fun a j => tensorAdd a ((fun _ => [FP.zero]) j)) []).map
        (fun v => v.mul
          (if wGenState.bRegression = false ∧ false = true ∧ wGenState.cTargetStates = 2
           then (FP.val 1).div
             (FP.val ((2 * (if wGenState.cSamplingSets = 0 then 1 else wGenState.cSamplingSets) : ℕ) : ℚ))
           else (FP.val 1).div
             (FP.val (((if wGenState.cSamplingSets = 0 then 1 else wGenState.cSamplingSets : ℕ)) : ℚ))))) :=
  generate_update_scaling wLearners false wGenState 0 (FP.val 1)
    (fun _ => [FP.zero]) (fun _ => FP.zero) rfl (fun _ => rfl)

/-- C7: the gain written to `*pGainReturn` by the update-generation driver
equals the sum of the per-sampling-set gains divided by the number of
sampling sets, with `cSamplingSets = 0` promoted to 1 at use time. -/
theorem generate_update_gain (L : Learners) (bExpandBinaryLogits : Bool)
    (s : EbmTrainingState) (i : ℕ) (learningRate : FP)
    (t : ℕ → List FP) (g : ℕ → FP)
    (hS : s.hasSamplingSets = true)
    (hmode : s.bRegression = true ∨ 2 ≤ s.cTargetStates)
    (hlearn : ∀ j, learnerResult L
      (s.featureCombinations.getD i default).cFeatures j = some (t j, g j)) :
    (GenerateModelFeatureCombinationUpdate L bExpandBinaryLogits s i
        learningRate).2 =
      ((List.range (if s.cSamplingSets = 0 then 1 else s.cSamplingSets)).foldl
          (fun a j => a.add (g j)) FP.zero).div
        (FP.val (((if s.cSamplingSets = 0 then 1 else s.cSamplingSets : ℕ)) : ℚ)) := by
  have hcond : (!s.bRegression && decide (s.cTargetStates ≤ 1)) ≠ true := by
    rcases hmode with h | h
    · rw [h]; simp
    · simp only [ne_eq, Bool.and_eq_true, Bool.not_eq_true', decide_eq_true_eq, not_and]
      intro _ hle
      omega
  rw [GenerateModelFeatureCombinationUpdate, if_neg hcond,
    GenerateModelFeatureCombinationUpdatePerTargetStates, if_pos hS,
    generateLoop_eq L _ t g hlearn]

theorem generate_update_gain_witness :
    (GenerateModelFeatureCombinationUpdate wLearners false wGenState 0
        (FP.val 1)).2 =
      ((List.range (if wGenState.cSamplingSets = 0 then 1 else wGenState.cSamplingSets)).foldl
          (fun a j => a.add ((fun _ => FP.zero) j)) FP.zero).div
        (FP.val (((if wGenState.cSamplingSets = 0 then 1 else wGenState.cSamplingSets : ℕ)) : ℚ)) :=
  generate_update_gain wLearners false wGenState 0 (FP.val 1)
    (fun _ => [FP.zero]) (fun _ => FP.zero) rfl (Or.inl rfl) (fun _ => rfl)

/-- C8: when the compile-time zeroing index `Z = k_iZeroResidual` is
configured (`0 <= Z < K`), the multiclass training-set pass forces the
residual at class index `Z` to 0 for every case it processes, after
computing the per-class softmax residuals of that case. -/
theorem multiclass_residual_zeroing (E : ExtFuns) (Z : ℤ) (K : ℕ)
    (fc : FeatureCombination) (upd : List FP) (ds : DataSet)
    (hZ : 0 ≤ Z) (hZK : Z.toNat < K) (hK : K ≠ 2) :
    ∀ rb ∈ (TrainingSetTargetFeatureLoop E Z false K fc upd ds).residuals,
      rb.getD Z.toNat FP.nan = FP.zero ∧
      ∃ iBin target scoreBlock,
        rb = (multiclassResidualBlockRaw E K target
          (multiclassNewScores upd K iBin scoreBlock)).set Z.toNat FP.zero := by
  intro rb hrb
  rw [TrainingSetTargetFeatureLoop] at hrb
  simp only [List.map_map, List.mem_map, Function.comp] at hrb
  obtain ⟨x, hx, hrb⟩ := hrb
  have hred : (trainCase E Z false K upd x.1 x.2.1 x.2.2.1 x.2.2.2).2 =
      (multiclassResidualBlockRaw E K x.2.1
        (multiclassNewScores upd K x.1 x.2.2.1)).set Z.toNat FP.zero := by
    rw [trainCase, if_neg (by simp), if_neg hK]
    simp only [applyZeroResidual, if_pos hZ]
  rw [hred] at hrb
  subst hrb
  refine ⟨?_, x.1, x.2.1, x.2.2.1, rfl⟩
  apply getD_set_of_lt
  simpa [multiclassResidualBlockRaw] using hZK

theorem multiclass_residual_zeroing_witness :
    (((TrainingSetTargetFeatureLoop wExt 0 false 3 ⟨0, 0, 0⟩ []
        ⟨1, [0], [[FP.zero, FP.zero, FP.zero]], [[FP.zero, FP.zero, FP.zero]],
          []⟩).residuals.headD []).getD (0 : ℤ).toNat FP.nan = FP.zero) ∧
    ∃ iBin target scoreBlock,
      (TrainingSetTargetFeatureLoop wExt 0 false 3 ⟨0, 0, 0⟩ []
        ⟨1, [0], [[FP.zero, FP.zero, FP.zero]], [[FP.zero, FP.zero, FP.zero]],
          []⟩).residuals.headD [] =
        (multiclassResidualBlockRaw wExt 3 target
          (multiclassNewScores [] 3 iBin scoreBlock)).set (0 : ℤ).toNat FP.zero :=
  multiclass_residual_zeroing wExt 0 3 ⟨0, 0, 0⟩ []
    ⟨1, [0], [[FP.zero, FP.zero, FP.zero]], [[FP.zero, FP.zero, FP.zero]], []⟩
    (by decide) (by decide) (by decide) _ (List.mem_singleton.mpr rfl)

/-- The residual block the training pass computes for one case when the
update tensor is all zero: unchanged for regression (the kernel is the
identity on `residual - 0`), `target - sigma(score)` for binary
classification, and the zeroed per-class softmax residuals for
multiclass. -/
def recomputedResidualBlock (E : ExtFuns) (Z : ℤ) (bRegression : Bool)
    (cTargetStates : ℕ) (target : ℕ) (scoreBlock residBlock : List FP) :
    List FP :=
  if bRegression then residBlock
  else if cTargetStates = 2 then
    [ComputeClassificationResidualErrorBinaryclass E (scoreBlock.headD FP.zero) target]
  else
    applyZeroResidual Z
      (multiclassResidualBlockRaw E cTargetStates target scoreBlock)

/-- Shape invariants of a data set: per-case buffers have one entry per
case and every score and residual block has the vector length of the
mode. -/
def DataSet.wellFormed (V : ℕ) (ds : DataSet) : Prop :=
  ds.targets.length = ds.cCases ∧ ds.scores.length = ds.cCases ∧
  ds.residuals.length = ds.cCases ∧
  (∀ b ∈ ds.scores, b.length = V) ∧ (∀ b ∈ ds.residuals, b.length = V)

/-- The residual buffer is in sync with the prediction scores: every stored
residual block equals the block the pass would recompute from the current
scores. -/
def DataSet.residualsInSync (E : ExtFuns) (Z : ℤ) (bRegression : Bool)
    (cTargetStates : ℕ) (ds : DataSet) : Prop :=
  ds.residuals = (ds.targets.zip (ds.scores.zip ds.residuals)).map
    (fun x => recomputedResidualBlock E Z bRegression cTargetStates x.1 x.2.1 x.2.2)

/-- The all-zero update tensor of the shape of one model tensor. -/
def zeroUpdateFor (s : EbmTrainingState) (i : ℕ) : List FP :=
  List.replicate (s.currentModel.getD i []).length FP.zero

theorem trainCase_zero_update (E : ExtFuns) (Z : ℤ) (bReg : Bool) (K Lz : ℕ)
    (iBin target : ℕ) (sb rb : List FP)
    (hsb : sb.length = vectorLength bReg K)
    (hrb : rb.length = vectorLength bReg K)
    (hK : bReg = true ∨ 2 ≤ K) :
    trainCase E Z bReg K (List.replicate Lz FP.zero) iBin target sb rb =
      (sb, recomputedResidualBlock E Z bReg K target sb rb) := by
  cases bReg with
  | true =>
      rw [trainCase, if_pos rfl, recomputedResidualBlock, if_pos rfl]
      rw [replicate_getD_zero, FP.sub_fzero, ComputeRegressionResidualError]
      have h1 := length_one_eq_headD rb (by simpa [vectorLength] using hrb)
      rw [← h1]
  | false =>
      have hK2 : 2 ≤ K := by
        rcases hK with h | h
        · cases h
        · exact h
      by_cases h2 : K = 2
      · subst h2
        rw [trainCase, if_neg (by simp), if_pos rfl,
          recomputedResidualBlock, if_neg (by simp), if_pos rfl]
        rw [replicate_getD_zero, FP.add_fzero]
        have hsb1 := length_one_eq_headD sb (by simpa [vectorLength] using hsb)
        dsimp only
        rw [← hsb1]
      · have hsbK : sb.length = K := by
          rw [hsb, vectorLength, if_neg (by simp), if_neg h2]
        have hns : multiclassNewScores (List.replicate Lz FP.zero) K iBin sb = sb := by
          rw [multiclassNewScores]
          have hcongr : ∀ j ∈ List.range K,
              (sb.getD j FP.zero).add
                ((List.replicate Lz FP.zero).getD (iBin * K + j) FP.zero) =
              sb.getD j FP.zero := by
            intro j _
            rw [replicate_getD_zero, FP.add_fzero]
          rw [List.map_congr_left hcongr, ← hsbK]
          exact range_map_getD sb
        rw [trainCase, if_neg (by simp), if_neg h2,
          recomputedResidualBlock, if_neg (by simp), if_neg h2]
        simp only [hns]

theorem validationCase_zero_update (E : ExtFuns) (bReg : Bool) (K Lz : ℕ)
    (iBin target : ℕ) (sb rb : List FP)
    (hsb : sb.length = vectorLength bReg K)
    (hrb : rb.length = vectorLength bReg K)
    (hK : bReg = true ∨ 2 ≤ K) :
    (validationCase E bReg K (List.replicate Lz FP.zero) iBin target sb rb).1 = sb ∧
    (validationCase E bReg K (List.replicate Lz FP.zero) iBin target sb rb).2.1 = rb := by
  cases bReg with
  | true =>
      rw [validationCase, if_pos rfl]
      refine ⟨rfl, ?_⟩
      rw [replicate_getD_zero, FP.sub_fzero, ComputeRegressionResidualError]
      have h1 := length_one_eq_headD rb (by simpa [vectorLength] using hrb)
      dsimp only
      rw [← h1]
  | false =>
      by_cases h2 : K = 2
      · subst h2
        rw [validationCase, if_neg (by simp), if_pos rfl]
        refine ⟨?_, rfl⟩
        rw [replicate_getD_zero, FP.add_fzero]
        have hsb1 := length_one_eq_headD sb (by simpa [vectorLength] using hsb)
        dsimp only
        rw [← hsb1]
      · have hsbK : sb.length = K := by
          rw [hsb, vectorLength, if_neg (by simp), if_neg h2]
        have hns : multiclassNewScores (List.replicate Lz FP.zero) K iBin sb = sb := by
          rw [multiclassNewScores]
          have hcongr : ∀ j ∈ List.range K,
              (sb.getD j FP.zero).add
                ((List.replicate Lz FP.zero).getD (iBin * K + j) FP.zero) =
              sb.getD j FP.zero := by
            intro j _
            rw [replicate_getD_zero, FP.add_fzero]
          rw [List.map_congr_left hcongr, ← hsbK]
          exact range_map_getD sb
        rw [validationCase, if_neg (by simp), if_neg h2]
        dsimp only
        rw [hns]
        exact ⟨rfl, rfl⟩

theorem trainLoop_zero_lists (E : ExtFuns) (Z : ℤ) (bReg : Bool) (K Lz : ℕ)
    (hK : bReg = true ∨ 2 ≤ K) :
    ∀ (bins tgs : List ℕ) (scs rss : List (List FP)),
      bins.length = tgs.length → tgs.length = scs.length →
      scs.length = rss.length →
      (∀ b ∈ scs, b.length = vectorLength bReg K) →
      (∀ b ∈ rss, b.length = vectorLength bReg K) →
      (((bins.zip (tgs.zip (scs.zip rss))).map
          (fun x => trainCase E Z bReg K (List.replicate Lz FP.zero)
            x.1 x.2.1 x.2.2.1 x.2.2.2)).map (fun y => y.1) = scs ∧
       ((bins.zip (tgs.zip (scs.zip rss))).map
          (fun x => trainCase E Z bReg K (List.replicate Lz FP.zero)
            x.1 x.2.1 x.2.2.1 x.2.2.2)).map (fun y => y.2) =
        (tgs.zip (scs.zip rss)).map
          (fun x => recomputedResidualBlock E Z bReg K x.1 x.2.1 x.2.2)) := by
  intro bins
  induction bins with
  | nil =>
      intro tgs scs rss h1 h2 h3 _ _
      simp only [List.length_nil] at h1
      have htn : tgs = [] := List.length_eq_zero.mp h1.symm
      subst htn
      simp only [List.length_nil] at h2
      have hsn : scs = [] := List.length_eq_zero.mp h2.symm
      subst hsn
      simp only [List.length_nil] at h3
      have hrn : rss = [] := List.length_eq_zero.mp h3.symm
      subst hrn
      exact ⟨rfl, rfl⟩
  | cons b bs ih =>
      intro tgs scs rss h1 h2 h3 hsc hrs
      cases tgs with
      | nil => simp at h1
      | cons t ts =>
          cases scs with
          | nil => simp at h2
          | cons sc scs2 =>
              cases rss with
              | nil => simp at h3
              | cons rs rss2 =>
                  simp only [List.zip_cons_cons, List.map_cons]
                  have hhead := trainCase_zero_update E Z bReg K Lz b t sc rs
                    (hsc sc (List.mem_cons_self sc scs2))
                    (hrs rs (List.mem_cons_self rs rss2)) hK
                  have htail := ih ts scs2 rss2 (by simpa using h1)
                    (by simpa using h2) (by simpa using h3)
                    (fun x hx => hsc x (List.mem_cons_of_mem sc hx))
                    (fun x hx => hrs x (List.mem_cons_of_mem rs hx))
                  constructor
                  · rw [htail.1, hhead]
                  · rw [htail.2, hhead]

theorem validationLoop_zero_lists (E : ExtFuns) (bReg : Bool) (K Lz : ℕ)
    (hK : bReg = true ∨ 2 ≤ K) :
    ∀ (bins tgs : List ℕ) (scs rss : List (List FP)),
      bins.length = tgs.length → tgs.length = scs.length →
      scs.length = rss.length →
      (∀ b ∈ scs, b.length = vectorLength bReg K) →
      (∀ b ∈ rss, b.length = vectorLength bReg K) →
      (((bins.zip (tgs.zip (scs.zip rss))).map
          (fun x => validationCase E bReg K (List.replicate Lz FP.zero)
            x.1 x.2.1 x.2.2.1 x.2.2.2)).map (fun y => y.1) = scs ∧
       ((bins.zip (tgs.zip (scs.zip rss))).map
          (fun x => validationCase E bReg K (List.replicate Lz FP.zero)
            x.1 x.2.1 x.2.2.1 x.2.2.2)).map (fun y => y.2.1) = rss) := by
  intro bins
  induction bins with
  | nil =>
      intro tgs scs rss h1 h2 h3 _ _
      simp only [List.length_nil] at h1
      have htn : tgs = [] := List.length_eq_zero.mp h1.symm
      subst htn
      simp only [List.length_nil] at h2
      have hsn : scs = [] := List.length_eq_zero.mp h2.symm
      subst hsn
      simp only [List.length_nil] at h3
      have hrn : rss = [] := List.length_eq_zero.mp h3.symm
      subst hrn
      exact ⟨rfl, rfl⟩
  | cons b bs ih =>
      intro tgs scs rss h1 h2 h3 hsc hrs
      cases tgs with
      | nil => simp at h1
      | cons t ts =>
          cases scs with
          | nil => simp at h2
          | cons sc scs2 =>
              cases rss with
              | nil => simp at h3
              | cons rs rss2 =>
                  simp only [List.zip_cons_cons, List.map_cons]
                  have hhead := validationCase_zero_update E bReg K Lz b t sc rs
                    (hsc sc (List.mem_cons_self sc scs2))
                    (hrs rs (List.mem_cons_self rs rss2)) hK
                  have htail := ih ts scs2 rss2 (by simpa using h1)
                    (by simpa using h2) (by simpa using h3)
                    (fun x hx => hsc x (List.mem_cons_of_mem sc hx))
                    (fun x hx => hrs x (List.mem_cons_of_mem rs hx))
                  constructor
                  · rw [htail.1, hhead.1]
                  · rw [htail.2, hhead.2]

theorem trainingLoop_zero_update (E : ExtFuns) (Z : ℤ) (bReg : Bool)
    (K Lz : ℕ) (fc : FeatureCombination) (ds : DataSet)
    (hwf : ds.wellFormed (vectorLength bReg K))
    (hbins : (caseBins fc ds).length = ds.cCases)
    (hK : bReg = true ∨ 2 ≤ K)
    (hsync : ds.residualsInSync E Z bReg K) :
    TrainingSetTargetFeatureLoop E Z bReg K fc (List.replicate Lz FP.zero) ds = ds := by
  obtain ⟨ht, hs, hr, hsc, hrs⟩ := hwf
  obtain ⟨h1, h2⟩ := trainLoop_zero_lists E Z bReg K Lz hK (caseBins fc ds)
    ds.targets ds.scores ds.residuals (by omega) (by omega) (by omega) hsc hrs
  have hsync2 : ds.residuals = (ds.targets.zip (ds.scores.zip ds.residuals)).map
      (fun x => recomputedResidualBlock E Z bReg K x.1 x.2.1 x.2.2) := hsync
  simp only [TrainingSetTargetFeatureLoop]
  rw [h1, h2, ← hsync2]

theorem validationLoop_zero_update (E : ExtFuns) (bReg : Bool) (K Lz : ℕ)
    (fc : FeatureCombination) (ds : DataSet)
    (hwf : ds.wellFormed (vectorLength bReg K))
    (hbins : (caseBins fc ds).length = ds.cCases)
    (hK : bReg = true ∨ 2 ≤ K) :
    (ValidationSetTargetFeatureLoop E bReg K fc (List.replicate Lz FP.zero) ds).2 = ds := by
  obtain ⟨ht, hs, hr, hsc, hrs⟩ := hwf
  obtain ⟨h1, h2⟩ := validationLoop_zero_lists E bReg K Lz hK (caseBins fc ds)
    ds.targets ds.scores ds.residuals (by omega) (by omega) (by omega) hsc hrs
  simp only [ValidationSetTargetFeatureLoop]
  rw [h1, h2]

/-- Unfolding of ApplyModelFeatureCombinationUpdatePerTargetStates when the
validation set is absent. -/
theorem applyPer_validation_none (E : ExtFuns) (Z : ℤ) (s : EbmTrainingState)
    (i : ℕ) (upd : List FP) (hv : s.validationSet = none) :
    ApplyModelFeatureCombinationUpdatePerTargetStates E Z s i upd =
      (0, FP.zero,
       { s with
         currentModel := s.currentModel.set i
           (List.zipWith FP.add (s.currentModel.getD i []) upd)
         trainingSet := s.trainingSet.map
           (fun ts => TrainingSetTargetFeatureLoop E Z s.bRegression
             s.cTargetStates (s.featureCombinations.getD i default) upd ts) }) := by
  obtain ⟨breg, cts, fcs, tset, vset, css, hss, cm, bm, bmm⟩ := s
  change vset = none at hv
  subst hv
  rfl

/-- C9: applying the all-zero update tensor to any combination of a
well-formed training state whose residuals are in sync with its scores (and
whose best model is consistent with its commit history) leaves all
prediction scores, all residuals, all current-model tensors and all
best-model tensors unchanged, and a repeated call returns the same
validation metric. -/
theorem apply_allzero_update_identity (E : ExtFuns) (Z : ℤ)
    (s : EbmTrainingState) (i : ℕ)
    (hmode : s.bRegression = true ∨ 2 ≤ s.cTargetStates)
    (htr : ∀ ts, s.trainingSet = some ts →
      ts.wellFormed (vectorLength s.bRegression s.cTargetStates) ∧
      (caseBins (s.featureCombinations.getD i default) ts).length = ts.cCases ∧
      ts.residualsInSync E Z s.bRegression s.cTargetStates)
    (hva : ∀ vs, s.validationSet = some vs →
      vs.wellFormed (vectorLength s.bRegression s.cTargetStates) ∧
      (caseBins (s.featureCombinations.getD i default) vs).length = vs.cCases)
    (hbest : FP.lt (ApplyModelFeatureCombinationUpdatePerTargetStates E Z s i
        (zeroUpdateFor s i)).2.1 s.bestModelMetric = false ∨
      s.bestModel = s.currentModel) :
    (ApplyModelFeatureCombinationUpdatePerTargetStates E Z s i
      (zeroUpdateFor s i)).2.2.currentModel = s.currentModel ∧
    (ApplyModelFeatureCombinationUpdatePerTargetStates E Z s i
      (zeroUpdateFor s i)).2.2.trainingSet = s.trainingSet ∧
    (ApplyModelFeatureCombinationUpdatePerTargetStates E Z s i
      (zeroUpdateFor s i)).2.2.validationSet = s.validationSet ∧
    (ApplyModelFeatureCombinationUpdatePerTargetStates E Z s i
      (zeroUpdateFor s i)).2.2.bestModel = s.bestModel ∧
    (ApplyModelFeatureCombinationUpdatePerTargetStates E Z
      (ApplyModelFeatureCombinationUpdatePerTargetStates E Z s i
        (zeroUpdateFor s i)).2.2 i (zeroUpdateFor s i)).2.1 =
      (ApplyModelFeatureCombinationUpdatePerTargetStates E Z s i
        (zeroUpdateFor s i)).2.1 := by
  have hcur : s.currentModel.set i
      (List.zipWith FP.add (s.currentModel.getD i []) (zeroUpdateFor s i)) =
      s.currentModel := by
    rw [zeroUpdateFor, zipWith_add_replicate_zero]
    exact set_getD_self s.currentModel i []
  have htrain : s.trainingSet.map
      (fun ts => TrainingSetTargetFeatureLoop E Z s.bRegression s.cTargetStates
        (s.featureCombinations.getD i default) (zeroUpdateFor s i) ts) =
      s.trainingSet := by
    cases hts : s.trainingSet with
    | none => rfl
    | some ts =>
        obtain ⟨hwf, hbins, hsync⟩ := htr ts hts
        rw [Option.map_some', zeroUpdateFor,
          trainingLoop_zero_update E Z s.bRegression s.cTargetStates _
            (s.featureCombinations.getD i default) ts hwf hbins hmode hsync]
  cases hv : s.validationSet with
  | none =>
      have hstate : ({ s with
          currentModel := s.currentModel.set i
            (List.zipWith FP.add (s.currentModel.getD i []) (zeroUpdateFor s i))
          trainingSet := s.trainingSet.map
            (fun ts => TrainingSetTargetFeatureLoop E Z s.bRegression
              s.cTargetStates (s.featureCombinations.getD i default)
              (zeroUpdateFor s i) ts) } : EbmTrainingState) = s := by
        rw [hcur, htrain]
      rw [applyPer_validation_none E Z s i _ hv, hstate]
      dsimp only
      refine ⟨rfl, rfl, hv, rfl, ?_⟩
      rw [applyPer_validation_none E Z s i _ hv]
  | some vs =>
      obtain ⟨hwfv, hbinsv⟩ := hva vs hv
      have hvs : (ValidationSetTargetFeatureLoop E s.bRegression s.cTargetStates
          (s.featureCombinations.getD i default) (zeroUpdateFor s i) vs).2 = vs := by
        rw [zeroUpdateFor]
        exact validationLoop_zero_update E s.bRegression s.cTargetStates _
          (s.featureCombinations.getD i default) vs hwfv hbinsv hmode
      have hplain : ({ s with
          currentModel := s.currentModel.set i
            (List.zipWith FP.add (s.currentModel.getD i []) (zeroUpdateFor s i))
          trainingSet := s.trainingSet.map
            (fun ts => TrainingSetTargetFeatureLoop E Z s.bRegression
              s.cTargetStates (s.featureCombinations.getD i default)
              (zeroUpdateFor s i) ts)
          validationSet := some (ValidationSetTargetFeatureLoop E s.bRegression
            s.cTargetStates (s.featureCombinations.getD i default)
            (zeroUpdateFor s i) vs).2 } : EbmTrainingState) = s := by
        rw [hcur, htrain, hvs, ← hv]
      have hcommit : ({ s with
          currentModel := s.currentModel.set i
            (List.zipWith FP.add (s.currentModel.getD i []) (zeroUpdateFor s i))
          trainingSet := s.trainingSet.map
            (fun ts => TrainingSetTargetFeatureLoop E Z s.bRegression
              s.cTargetStates (s.featureCombinations.getD i default)
              (zeroUpdateFor s i) ts)
          validationSet := some (ValidationSetTargetFeatureLoop E s.bRegression
            s.cTargetStates (s.featureCombinations.getD i default)
            (zeroUpdateFor s i) vs).2
          bestModel := s.currentModel.set i
            (List.zipWith FP.add (s.currentModel.getD i []) (zeroUpdateFor s i))
          bestModelMetric := (ValidationSetTargetFeatureLoop E s.bRegression
            s.cTargetStates (s.featureCombinations.getD i default)
            (zeroUpdateFor s i) vs).1 } : EbmTrainingState) =
          { s with
            bestModel := s.currentModel
            bestModelMetric := (ValidationSetTargetFeatureLoop E s.bRegression
              s.cTargetStates (s.featureCombinations.getD i default)
              (zeroUpdateFor s i) vs).1 } := by
        rw [hcur, htrain, hvs, ← hv]
      rw [applyPer_validation_some E Z s i _ vs hv] at hbest ⊢
      rw [hplain, hcommit] at hbest ⊢
      rw [apply_ite (fun p : ℕ × FP × EbmTrainingState => p.2.1), ite_self] at hbest
      dsimp only at hbest
      refine ⟨?_, ?_, ?_, ?_, ?_⟩
      · rw [apply_ite (fun p : ℕ × FP × EbmTrainingState => p.2.2.currentModel)]
        dsimp only
        rw [ite_self]
      · rw [apply_ite (fun p : ℕ × FP × EbmTrainingState => p.2.2.trainingSet)]
        dsimp only
        rw [ite_self]
      · rw [apply_ite (fun p : ℕ × FP × EbmTrainingState => p.2.2.validationSet)]
        dsimp only
        rw [ite_self]
        exact hv
      · rw [apply_ite (fun p : ℕ × FP × EbmTrainingState => p.2.2.bestModel)]
        dsimp only
        rcases hbest with hb | hb
        · rw [if_neg (by rw [hb]; exact Bool.false_ne_true)]
        · by_cases hc : FP.lt (ValidationSetTargetFeatureLoop E s.bRegression
              s.cTargetStates (s.featureCombinations.getD i default)
              (zeroUpdateFor s i) vs).1 s.bestModelMetric = true
          · rw [if_pos hc, hb]
          · rw [if_neg hc]
      · rw [apply_ite (fun p : ℕ × FP × EbmTrainingState =>
          (ApplyModelFeatureCombinationUpdatePerTargetStates E Z p.2.2 i
            (zeroUpdateFor s i)).2.1)]
        rw [apply_ite (fun p : ℕ × FP × EbmTrainingState => p.2.1), ite_self]
        dsimp only
        rw [applyPer_validation_some E Z ({ s with
            bestModel := s.currentModel
            bestModelMetric := (ValidationSetTargetFeatureLoop E s.bRegression
              s.cTargetStates (s.featureCombinations.getD i default)
              (zeroUpdateFor s i) vs).1 } : EbmTrainingState) i
          (zeroUpdateFor s i) vs hv]
        rw [applyPer_validation_some E Z s i (zeroUpdateFor s i) vs hv]
        rw [apply_ite (fun p : ℕ × FP × EbmTrainingState => p.2.1), ite_self,
          apply_ite (fun p : ℕ × FP × EbmTrainingState => p.2.1), ite_self]
        dsimp only
        rw [ite_self]

def wZeroState : EbmTrainingState :=
  { bRegression := true
    cTargetStates := 0
    featureCombinations := [⟨0, 0, 0⟩]
    trainingSet := some ⟨1, [0], [[FP.val 2]], [[FP.val 0]], []⟩
    validationSet := some ⟨1, [0], [[FP.val 3]], [[FP.val 0]], []⟩
    cSamplingSets := 0
    hasSamplingSets := false
    currentModel := [[FP.val 1]]
    bestModel := [[FP.val 1]]
    bestModelMetric := FP.inf }

theorem apply_allzero_update_identity_witness :
    (ApplyModelFeatureCombinationUpdatePerTargetStates wExt (-1) wZeroState 0
      (zeroUpdateFor wZeroState 0)).2.2.currentModel = wZeroState.currentModel ∧
    (ApplyModelFeatureCombinationUpdatePerTargetStates wExt (-1) wZeroState 0
      (zeroUpdateFor wZeroState 0)).2.2.trainingSet = wZeroState.trainingSet ∧
    (ApplyModelFeatureCombinationUpdatePerTargetStates wExt (-1) wZeroState 0
      (zeroUpdateFor wZeroState 0)).2.2.validationSet = wZeroState.validationSet ∧
    (ApplyModelFeatureCombinationUpdatePerTargetStates wExt (-1) wZeroState 0
      (zeroUpdateFor wZeroState 0)).2.2.bestModel = wZeroState.bestModel ∧
    (ApplyModelFeatureCombinationUpdatePerTargetStates wExt (-1)
      (ApplyModelFeatureCombinationUpdatePerTargetStates wExt (-1) wZeroState 0
        (zeroUpdateFor wZeroState 0)).2.2 0 (zeroUpdateFor wZeroState 0)).2.1 =
      (ApplyModelFeatureCombinationUpdatePerTargetStates wExt (-1) wZeroState 0
        (zeroUpdateFor wZeroState 0)).2.1 :=
  apply_allzero_update_identity wExt (-1) wZeroState 0 (Or.inl rfl)
    (fun ts h => by
      injection h with h2
      subst h2
      refine ⟨?_, rfl, ?_⟩
      · unfold DataSet.wellFormed
        decide
      · unfold DataSet.residualsInSync
        decide)
    (fun vs h => by
      injection h with h2
      subst h2
      refine ⟨?_, rfl⟩
      unfold DataSet.wellFormed
      decide)
    (Or.inr rfl)
